import Mathlib

/-!
Verification development for the chess move-generation and perft engine
(`search.cpp`, `game_logic.cpp`).  The C++ state is embedded shallowly:
`std::map<BoardPosition, ChessPiece>` becomes a key-sorted association list,
the file-scope mutable variables (`enPassantTarget`, `castlingRights`, the
move-generation cache) become explicitly threaded state, and every C++
function used by the perft driver is translated into an executable Lean
definition with the same name.
-/

namespace Phosphor

/-- Mirrors `enum class PieceType { PAWN, ROOK, KNIGHT, BISHOP, QUEEN, KING }`
(`pieces_placement.h`). -/
inductive PieceType where
  | PAWN | ROOK | KNIGHT | BISHOP | QUEEN | KING
deriving DecidableEq, Repr

/-- Mirrors `enum class PieceColor { WHITE, BLACK }` (`pieces_placement.h`). -/
inductive PieceColor where
  | WHITE | BLACK
deriving DecidableEq, Repr

/-- Mirrors `struct ChessPiece` (`pieces_placement.h`); the `sf::Sprite`
member carries no game state and is dropped. -/
structure ChessPiece where
  type : PieceType
  color : PieceColor
deriving DecidableEq, Repr

/-- `using BoardPosition = std::pair<int, int>` — (column, row), row 0 = rank 8. -/
abbrev BoardPosition := Int × Int

/-- `std::pair<int,int>::operator<` : lexicographic order used by `std::map`. -/
def posLt (p q : BoardPosition) : Bool :=
  p.1 < q.1 || (p.1 == q.1 && p.2 < q.2)

/-- The board, `std::map<BoardPosition, ChessPiece>`, as a key-sorted
association list (iteration order of the C++ map = ascending key order). -/
abbrev Board := List (BoardPosition × ChessPiece)

namespace Board

/-- `pieces.find(pos)` — first entry with the given key. -/
def find? (b : Board) (k : BoardPosition) : Option ChessPiece :=
  match b with
  | [] => none
  | (k', v) :: rest => if k = k' then some v else find? rest k

/-- `pieces[pos] = piece` — ordered insert-or-replace, keeping the list
sorted exactly as `std::map` keeps its entries. -/
def insert (b : Board) (k : BoardPosition) (v : ChessPiece) : Board :=
  match b with
  | [] => [(k, v)]
  | (k', v') :: rest =>
      if posLt k' k then (k', v') :: insert rest k v
      else if k = k' then (k, v) :: rest
      else (k, v) :: (k', v') :: rest

/-- `pieces.erase(pos)` — removes the entry with the given key. -/
def erase (b : Board) (k : BoardPosition) : Board :=
  match b with
  | [] => []
  | (k', v') :: rest => if k = k' then rest else (k', v') :: erase rest k

/-- Well-formedness of the embedding of `std::map`: keys strictly
ascending (hence unique), which the C++ container maintains by construction. -/
def Wf (b : Board) : Prop :=
  b.Pairwise (fun e e' => posLt e.1 e'.1)

instance (b : Board) : Decidable (Wf b) := by
  unfold Wf
  infer_instance

end Board

/-- `struct CastlingRights` (`search.cpp`). -/
structure CastlingRights where
  whiteKingSide : Bool
  whiteQueenSide : Bool
  blackKingSide : Bool
  blackQueenSide : Bool
deriving DecidableEq, Repr

/-- The file-scope mutable engine state of `search.cpp`
(`enPassantTarget` and `castlingRights`) together with the board that the
driver mutates in place. -/
structure EngineState where
  pieces : Board
  enPassantTarget : BoardPosition
  castlingRights : CastlingRights
deriving DecidableEq, Repr

/-- `struct MoveGenKey` — cache key for move generation: note that it holds
no fingerprint of the rest of the board. -/
structure MoveGenKey where
  position : BoardPosition
  pieceType : PieceType
  pieceColor : PieceColor
  epTarget : BoardPosition
deriving DecidableEq, Repr

/-- The global `moveGenCache` (`std::unordered_map<MoveGenKey, std::vector<BoardPosition>>`),
as an association list; only `find`, insert and `clear` are ever used. -/
abbrev MoveGenCache := List (MoveGenKey × List BoardPosition)

/-- Lookup in the move-generation cache. -/
def cacheFind? (c : MoveGenCache) (k : MoveGenKey) : Option (List BoardPosition) :=
  match c with
  | [] => none
  | (k', v) :: rest => if k = k' then some v else cacheFind? rest k

/-- `(currentTurn == WHITE) ? BLACK : WHITE`. -/
def nextTurn (c : PieceColor) : PieceColor :=
  match c with
  | .WHITE => .BLACK
  | .BLACK => .WHITE

/-- `getAllPiecesForColor` (`search.cpp`): all squares holding a piece of
the given color, in map (ascending key) order. -/
def getAllPiecesForColor (pieces : Board) (color : PieceColor) : List BoardPosition :=
  pieces.filterMap (fun e => if e.2.color = color then some e.1 else none)

/-- Knight move offsets, in the order of `knightDx` / `knightDy` in
`getLegalMovesForPiece` and `isSquareAttacked` (`search.cpp`). -/
def knightOffsets : List (Int × Int) :=
  [(-2, -1), (-2, 1), (-1, -2), (-1, 2), (1, -2), (1, 2), (2, -1), (2, 1)]

/-- King move offsets, in the order of `kingDx` / `kingDy` (`search.cpp`). -/
def kingOffsets : List (Int × Int) :=
  [(0, -1), (0, 1), (-1, 0), (1, 0), (-1, -1), (-1, 1), (1, -1), (1, 1)]

/-- Bishop ray directions, in the order of `bishopDx` / `bishopDy`. -/
def bishopDirs : List (Int × Int) :=
  [(-1, -1), (-1, 1), (1, -1), (1, 1)]

/-- Rook ray directions, in the order of `rookDx` / `rookDy`. -/
def rookDirs : List (Int × Int) :=
  [(0, -1), (0, 1), (-1, 0), (1, 0)]

/-- Queen ray directions, in the order of `queenDx` / `queenDy`. -/
def queenDirs : List (Int × Int) :=
  [(0, -1), (0, 1), (-1, 0), (1, 0), (-1, -1), (-1, 1), (1, -1), (1, 1)]

/-- One sliding ray of `getLegalMovesForPiece` (`for (int i = 1; i < 8; ++i)`
with breaks): empty squares are moves, the first occupied square ends the
ray and is a move iff it holds an enemy piece. -/
def rayMoves (pieces : Board) (myColor : PieceColor) (col row dx dy : Int) :
    Nat → Int → List BoardPosition
  | 0, _ => []
  | fuel + 1, i =>
      let c := col + i * dx
      let r := row + i * dy
      if c < 0 || c ≥ 8 || r < 0 || r ≥ 8 then []
      else
        match pieces.find? (c, r) with
        | none => (c, r) :: rayMoves pieces myColor col row dx dy fuel (i + 1)
        | some p => if p.color ≠ myColor then [(c, r)] else []

/-- All sliding moves over a direction list (the `for (dir …)` loops). -/
def slideMoves (pieces : Board) (myColor : PieceColor) (col row : Int)
    (dirs : List (Int × Int)) : List BoardPosition :=
  dirs.flatMap (fun d => rayMoves pieces myColor col row d.1 d.2 7 1)

/-- The pawn branch of `getLegalMovesForPiece` (`search.cpp`), in emission
order: forward one, forward two, capture left, en-passant left, capture
right, en-passant right. -/
def pawnMoves (pieces : Board) (piece : ChessPiece) (col row : Int)
    (enPassantTarget : BoardPosition) : List BoardPosition :=
  let direction : Int := if piece.color = .WHITE then -1 else 1
  let startRow : Int := if piece.color = .WHITE then 6 else 1
  let newRow := row + direction
  if 0 ≤ newRow ∧ newRow < 8 then
    let fwd :=
      if pieces.find? (col, newRow) = none then
        (col, newRow) ::
          (if row = startRow then
            let doubleRow := row + 2 * direction
            if 0 ≤ doubleRow ∧ doubleRow < 8 ∧ pieces.find? (col, doubleRow) = none then
              [(col, doubleRow)]
            else []
          else [])
      else []
    let captureSide := fun (c : Int) =>
      let cap :=
        match pieces.find? (c, newRow) with
        | some target => if target.color ≠ piece.color then [(c, newRow)] else []
        | none => []
      let ep :=
        if enPassantTarget.1 ≠ -1 ∧ enPassantTarget.1 = c ∧ enPassantTarget.2 = newRow then
          match pieces.find? (c, row) with
          | some pawn =>
              if pawn.type = .PAWN ∧ pawn.color ≠ piece.color then [enPassantTarget] else []
          | none => []
        else []
      cap ++ ep
    let left := if col > 0 then captureSide (col - 1) else []
    let right := if col < 7 then captureSide (col + 1) else []
    fwd ++ left ++ right
  else []

/-- Offset moves of knight and king (empty square or enemy piece), in
offset-list order. -/
def offsetMoves (pieces : Board) (piece : ChessPiece) (col row : Int)
    (offs : List (Int × Int)) : List BoardPosition :=
  offs.filterMap (fun d =>
    let c := col + d.1
    let r := row + d.2
    if 0 ≤ c ∧ c < 8 ∧ 0 ≤ r ∧ r < 8 then
      match pieces.find? (c, r) with
      | none => some (c, r)
      | some target => if target.color ≠ piece.color then some (c, r) else none
    else none)

/-- The castling emissions of the king branch of `getLegalMovesForPiece`:
requires the king on its start square, the corresponding right, the rook in
place and the strictly-between squares empty.  Check constraints are left
to `filterLegalMoves`. -/
def kingCastleMoves (pieces : Board) (piece : ChessPiece)
    (castlingRights : CastlingRights) (col row : Int) : List BoardPosition :=
  if (piece.color = .WHITE ∧ row = 7 ∧ col = 4) ∨
     (piece.color = .BLACK ∧ row = 0 ∧ col = 4) then
    let canKS := if piece.color = .WHITE then castlingRights.whiteKingSide
                 else castlingRights.blackKingSide
    let canQS := if piece.color = .WHITE then castlingRights.whiteQueenSide
                 else castlingRights.blackQueenSide
    let ks :=
      if canKS then
        match pieces.find? (7, row) with
        | some rook =>
            if rook.type = .ROOK ∧ rook.color = piece.color ∧
               pieces.find? (5, row) = none ∧ pieces.find? (6, row) = none then
              [(col + 2, row)]
            else []
        | none => []
      else []
    let qs :=
      if canQS then
        match pieces.find? (0, row) with
        | some rook =>
            if rook.type = .ROOK ∧ rook.color = piece.color ∧
               pieces.find? (1, row) = none ∧ pieces.find? (2, row) = none ∧
               pieces.find? (3, row) = none then
              [(col - 2, row)]
            else []
        | none => []
      else []
    ks ++ qs
  else []

/-- The pure move-generation body of `getLegalMovesForPiece` (`search.cpp`),
without the cache wrapper: pseudo-legal moves for the piece on `fromSq`.
Returns `[]` when the square is empty or holds the opponent's piece. -/
def getLegalMovesForPieceUncached (fromSq : BoardPosition) (pieces : Board)
    (currentTurn : PieceColor) (enPassantTarget : BoardPosition)
    (castlingRights : CastlingRights) : List BoardPosition :=
  match pieces.find? fromSq with
  | none => []
  | some piece =>
      if piece.color ≠ currentTurn then []
      else
        let col := fromSq.1
        let row := fromSq.2
        match piece.type with
        | .PAWN => pawnMoves pieces piece col row enPassantTarget
        | .KNIGHT => offsetMoves pieces piece col row knightOffsets
        | .BISHOP => slideMoves pieces piece.color col row bishopDirs
        | .ROOK => slideMoves pieces piece.color col row rookDirs
        | .QUEEN => slideMoves pieces piece.color col row queenDirs
        | .KING =>
            offsetMoves pieces piece col row kingOffsets ++
              kingCastleMoves pieces piece castlingRights col row

/-- `getLegalMovesForPiece` (`search.cpp`), with the global
`moveGenCache`: consult the cache first (the key carries no board
fingerprint), otherwise generate and store. -/
def getLegalMovesForPiece (fromSq : BoardPosition) (pieces : Board)
    (currentTurn : PieceColor) (enPassantTarget : BoardPosition)
    (castlingRights : CastlingRights) (cache : MoveGenCache) :
    List BoardPosition × MoveGenCache :=
  match pieces.find? fromSq with
  | none => ([], cache)
  | some piece =>
      if piece.color ≠ currentTurn then ([], cache)
      else
        let key : MoveGenKey := ⟨fromSq, piece.type, piece.color, enPassantTarget⟩
        match cacheFind? cache key with
        | some cached => (cached, cache)
        | none =>
            let moves := getLegalMovesForPieceUncached fromSq pieces currentTurn
              enPassantTarget castlingRights
            (moves, (key, moves) :: cache)

/-- Ray directions of `isSquareAttacked` (`search.cpp`):
N, NE, E, SE, S, SW, W, NW — even indices orthogonal, odd diagonal. -/
def attackDirs : List (Int × Int) :=
  [(0, -1), (1, -1), (1, 0), (1, 1), (0, 1), (-1, 1), (-1, 0), (-1, -1)]

/-- One ray of the sliding-attack scan of `isSquareAttacked`
(`for (int dist = 1; dist < 8; ++dist)` with breaks).  `dirIdx` is the
direction index, used for the rook/bishop parity tests. -/
def rayAttack (pieces : Board) (attackingColor : PieceColor)
    (x y dx dy : Int) (dirIdx : Nat) : Nat → Int → Bool
  | 0, _ => false
  | fuel + 1, dist =>
      let nx := x + dx * dist
      let ny := y + dy * dist
      if nx < 0 || nx ≥ 8 || ny < 0 || ny ≥ 8 then false
      else
        match pieces.find? (nx, ny) with
        | none => rayAttack pieces attackingColor x y dx dy dirIdx fuel (dist + 1)
        | some piece =>
            if piece.color = attackingColor then
              if piece.type = .KING ∧ dist = 1 then true
              else if piece.type = .QUEEN then true
              else if piece.type = .ROOK ∧ dirIdx % 2 = 0 then true
              else if piece.type = .BISHOP ∧ dirIdx % 2 = 1 then true
              else false
            else false

/-- `isSquareAttacked` (`search.cpp`): knight probes, then pawn probes
(note the code computes the pawn probe row as `square.second + pawnDir`
with `pawnDir = -1` for a White attacker), then the eight rays. -/
def isSquareAttacked (pieces : Board) (square : BoardPosition)
    (attackingColor : PieceColor) : Bool :=
  let knightHit := knightOffsets.any (fun d =>
    let nx := square.1 + d.1
    let ny := square.2 + d.2
    if 0 ≤ nx ∧ nx < 8 ∧ 0 ≤ ny ∧ ny < 8 then
      match pieces.find? (nx, ny) with
      | some p => p.type = .KNIGHT ∧ p.color = attackingColor
      | none => false
    else false)
  if knightHit then true
  else
    let pawnDir : Int := if attackingColor = .WHITE then -1 else 1
    let pawnAttackRow := square.2 + pawnDir
    let pawnHit :=
      if 0 ≤ pawnAttackRow ∧ pawnAttackRow < 8 then
        ((square.1 > 0) &&
          (match pieces.find? (square.1 - 1, pawnAttackRow) with
           | some p => p.type = .PAWN ∧ p.color = attackingColor
           | none => false)) ||
        ((square.1 < 7) &&
          (match pieces.find? (square.1 + 1, pawnAttackRow) with
           | some p => p.type = .PAWN ∧ p.color = attackingColor
           | none => false))
      else false
    if pawnHit then true
    else
      (List.range 8).any (fun dirIdx =>
        match attackDirs.get? dirIdx with
        | some d => rayAttack pieces attackingColor square.1 square.2 d.1 d.2 dirIdx 7 1
        | none => false)

/-- `isKingInCheck` (`search.cpp`): locate the king of the given color in
map iteration order and test whether it is attacked by the opponent. -/
def isKingInCheck (pieces : Board) (kingColor : PieceColor) : Bool :=
  match List.find? (fun e => e.2.type = PieceType.KING && e.2.color = kingColor) pieces with
  | none => false
  | some e => isSquareAttacked pieces e.1 (nextTurn kingColor)

/-- `isEnPassantCapture` (`search.cpp`): reads the file-scope
`enPassantTarget`, passed here explicitly as `enPassantTarget`. -/
def isEnPassantCapture (piece : ChessPiece) (fromSq toSq : BoardPosition)
    (pieces : Board) (enPassantTarget : BoardPosition) : Bool :=
  if piece.type ≠ .PAWN ∨ enPassantTarget.1 = -1 ∨ enPassantTarget.2 = -1 ∨
      toSq ≠ enPassantTarget ∨ fromSq.1 = toSq.1 then
    false
  else
    match pieces.find? (toSq.1, fromSq.2) with
    | some pawn => pawn.type = .PAWN ∧ pawn.color ≠ piece.color
    | none => false

/-- `isCastlingMove` (`search.cpp`). -/
def isCastlingMove (piece : ChessPiece) (fromSq toSq : BoardPosition) : Bool :=
  piece.type = .KING ∧ (toSq.1 - fromSq.1).natAbs = 2

/-- `calculateEnPassantTarget` (`search.cpp`): the skipped square after a
double pawn push from the starting rank, `(-1, -1)` otherwise. -/
def calculateEnPassantTarget (piece : ChessPiece) (fromSq toSq : BoardPosition) :
    BoardPosition :=
  if piece.type = .PAWN ∧ (fromSq.2 - toSq.2).natAbs = 2 then
    let startingRank : Int := if piece.color = .WHITE then 6 else 1
    if fromSq.2 = startingRank then (fromSq.1, (fromSq.2 + toSq.2) / 2)
    else (-1, -1)
  else (-1, -1)

/-- `updateCastlingRights` (`search.cpp`): king move drops both rights of
its color, a rook move from its home square drops that side's right. -/
def updateCastlingRights (fromSq : BoardPosition) (piece : ChessPiece)
    (cr : CastlingRights) : CastlingRights :=
  if piece.type = .KING then
    if piece.color = .WHITE then { cr with whiteKingSide := false, whiteQueenSide := false }
    else { cr with blackKingSide := false, blackQueenSide := false }
  else if piece.type = .ROOK then
    if piece.color = .WHITE then
      if fromSq = ((0 : Int), (7 : Int)) then { cr with whiteQueenSide := false }
      else if fromSq = ((7 : Int), (7 : Int)) then { cr with whiteKingSide := false }
      else cr
    else
      if fromSq = ((0 : Int), (0 : Int)) then { cr with blackQueenSide := false }
      else if fromSq = ((7 : Int), (0 : Int)) then { cr with blackKingSide := false }
      else cr
  else cr

/-- `updateCastlingRightsForCapture` (`search.cpp`): capturing a rook on
its home square drops the captured side's corresponding right. -/
def updateCastlingRightsForCapture (toSq : BoardPosition)
    (capturedPiece : ChessPiece) (cr : CastlingRights) : CastlingRights :=
  if capturedPiece.type = .ROOK then
    if capturedPiece.color = .WHITE then
      if toSq = ((0 : Int), (7 : Int)) then { cr with whiteQueenSide := false }
      else if toSq = ((7 : Int), (7 : Int)) then { cr with whiteKingSide := false }
      else cr
    else
      if toSq = ((0 : Int), (0 : Int)) then { cr with blackQueenSide := false }
      else if toSq = ((7 : Int), (0 : Int)) then { cr with blackKingSide := false }
      else cr
  else cr

/-- `handleCastling` (`search.cpp`): move the rook of a castling king from
its home square to the square beside the king's destination, if present. -/
def handleCastling (pieces : Board) (king : ChessPiece)
    (fromSq toSq : BoardPosition) : Board :=
  if ¬ isCastlingMove king fromSq toSq then pieces
  else
    let row := fromSq.2
    let rookFrom : BoardPosition := if toSq.1 > fromSq.1 then (7, row) else (0, row)
    let rookTo : BoardPosition :=
      if toSq.1 > fromSq.1 then (toSq.1 - 1, row) else (toSq.1 + 1, row)
    match pieces.find? rookFrom with
    | some rook => (pieces.erase rookFrom).insert rookTo rook
    | none => pieces

/-- `filterLegalMoves` (`search.cpp`): castling moves are checked against
check / through-check / into-check on the pre-move board; every other move
is simulated on a board copy (including removal of the en-passant victim)
and kept iff the mover's king is not attacked afterwards. -/
def filterLegalMoves (fromSq : BoardPosition) (moves : List BoardPosition)
    (pieces : Board) (currentTurn : PieceColor)
    (enPassantTarget : BoardPosition) : List BoardPosition :=
  let movingPiece := (pieces.find? fromSq).getD ⟨.PAWN, .WHITE⟩
  match List.find? (fun e => e.2.type = PieceType.KING && e.2.color = currentTurn) pieces with
  | none => []
  | some kingEntry =>
      let kingPos := kingEntry.1
      let opponentColor := nextTurn currentTurn
      let kingInCheck := isSquareAttacked pieces kingPos opponentColor
      moves.filter (fun toSq =>
        if isCastlingMove movingPiece fromSq toSq then
          if kingInCheck then false
          else
            let direction : Int := if toSq.1 > fromSq.1 then 1 else -1
            let throughSquare : BoardPosition := (fromSq.1 + direction, fromSq.2)
            if isSquareAttacked pieces throughSquare opponentColor then false
            else if isSquareAttacked pieces toSq opponentColor then false
            else true
        else
          let isEnPassant := movingPiece.type = .PAWN ∧ toSq = enPassantTarget ∧
            fromSq.1 ≠ toSq.1
          let withVictim :=
            if isEnPassant then
              let capturedPawnPos : BoardPosition := (toSq.1, fromSq.2)
              match pieces.find? capturedPawnPos with
              | some pawn =>
                  if pawn.type = .PAWN ∧ pawn.color ≠ movingPiece.color then
                    some (pieces.erase capturedPawnPos)
                  else none
              | none => none
            else some pieces
          match withVictim with
          | none => false
          | some base =>
              let tempPieces := (base.erase fromSq).insert toSq movingPiece
              let newKingPos := if movingPiece.type = .KING then toSq else kingPos
              ! isSquareAttacked tempPieces newKingPos opponentColor)

/-- `scoreMoveForOrdering` (`search.cpp`).  `std::abs(3.5 - x)` sums to an
exact integer for integral coordinates, computed here as
`(|7 - 2x| + |7 - 2y|) / 2`. -/
def scoreMoveForOrdering (fromSq toSq : BoardPosition) (movingPiece : ChessPiece)
    (pieces : Board) (enPassantTarget : BoardPosition) : Int :=
  let pieceValue : PieceType → Int := fun t =>
    match t with
    | .PAWN => 100 | .ROOK => 500 | .KNIGHT => 320
    | .BISHOP => 330 | .QUEEN => 900 | .KING => 20000
  let captureScore :=
    match pieces.find? toSq with
    | some victim => pieceValue victim.type * 100 - pieceValue movingPiece.type + 10000
    | none => 0
  let pawnScore :=
    if movingPiece.type = .PAWN then
      let promotionRank : Int := if movingPiece.color = .WHITE then 0 else 7
      let promo : Int := if toSq.2 = promotionRank then 15000 else 0
      let advancement : Int :=
        if movingPiece.color = .WHITE then 7 - toSq.2 else toSq.2
      promo + advancement * 10
    else 0
  let epScore : Int :=
    if movingPiece.type = .PAWN ∧ toSq = enPassantTarget then 9500 else 0
  let castleScore : Int :=
    if movingPiece.type = .KING ∧ (toSq.1 - fromSq.1).natAbs = 2 then 5000 else 0
  let centerScore : Int :=
    if movingPiece.type ≠ .PAWN then
      let centerDistance : Int := (((7 - 2 * toSq.1).natAbs + (7 - 2 * toSq.2).natAbs) : Nat) / 2
      (8 - centerDistance) * 5
    else 0
  captureScore + pawnScore + epScore + castleScore + centerScore

/-- Stable descending insertion, modelling the score-descending sort of
`orderMoves` (`std::sort` leaves tied scores in unspecified order; the
embedding fixes the stable order). -/
def insertByScore (x : BoardPosition × Int) :
    List (BoardPosition × Int) → List (BoardPosition × Int)
  | [] => [x]
  | y :: ys => if x.2 > y.2 then x :: y :: ys else y :: insertByScore x ys

/-- `orderMoves` (`search.cpp`): sort the move list by
`scoreMoveForOrdering`, descending. -/
def orderMoves (moves : List BoardPosition) (fromSq : BoardPosition)
    (movingPiece : ChessPiece) (pieces : Board)
    (enPassantTarget : BoardPosition) : List BoardPosition :=
  if moves.length ≤ 1 then moves
  else
    let scored := moves.map (fun t =>
      (t, scoreMoveForOrdering fromSq t movingPiece pieces enPassantTarget))
    (scored.foldl (fun acc x => insertByScore x acc) []).map (fun p => p.1)

/-- The undo record accumulated by the per-move block of
`countMovesAtDepth` (`search.cpp`): note that `oldCastlingRights` is the
snapshot the code takes *after* `updateCastlingRightsForCapture` has
already run. -/
structure UndoInfo where
  capturedPiece : Option ChessPiece
  oldCastlingRights : CastlingRights
  oldEnPassantTarget : BoardPosition
  isEnPassant : Bool
  capturedPawnPos : BoardPosition
  capturedPawn : Option ChessPiece
deriving DecidableEq, Repr

/-- The make phase of the per-move block of `countMovesAtDepth`
(`search.cpp`), in statement order: remember the captured piece and apply
the rook-capture rights update, snapshot the castling rights, apply the
mover rights update, snapshot the en-passant target, overwrite the global
en-passant target with the new one, *then* test `isEnPassantCapture`
(which reads the already-overwritten global), move the piece, and shuffle
the rook for a castling king. -/
def driverMakeMove (st : EngineState) (fromSq toSq : BoardPosition)
    (movingPiece : ChessPiece) : EngineState × UndoInfo :=
  let captured := st.pieces.find? toSq
  let cr1 :=
    match captured with
    | some cap => updateCastlingRightsForCapture toSq cap st.castlingRights
    | none => st.castlingRights
  let oldCastlingRights := cr1
  let cr2 := updateCastlingRights fromSq movingPiece cr1
  let oldEnPassantTarget := st.enPassantTarget
  let newEp := calculateEnPassantTarget movingPiece fromSq toSq
  let isEP := isEnPassantCapture movingPiece fromSq toSq st.pieces newEp
  let epData :=
    if isEP then
      let cpp : BoardPosition := (toSq.1, fromSq.2)
      match st.pieces.find? cpp with
      | some pw => (st.pieces.erase cpp, cpp, some pw)
      | none => (st.pieces, cpp, (none : Option ChessPiece))
    else (st.pieces, ((-1 : Int), (-1 : Int)), (none : Option ChessPiece))
  let pieces2 := (epData.1.erase fromSq).insert toSq movingPiece
  let pieces3 :=
    if movingPiece.type = .KING ∧ (toSq.1 - fromSq.1).natAbs = 2 then
      handleCastling pieces2 movingPiece fromSq toSq
    else pieces2
  (⟨pieces3, newEp, cr2⟩,
   ⟨captured, oldCastlingRights, oldEnPassantTarget, isEP, epData.2.1, epData.2.2⟩)

/-- The unmake phase of the per-move block of `countMovesAtDepth`
(`search.cpp`): move the piece back, restore the captured piece and the
en-passant victim, undo the castling rook shuffle (guarded only by a
lookup at the rook's post-castle square), and restore the saved en-passant
target and castling rights. -/
def driverUnmakeMove (st : EngineState) (fromSq toSq : BoardPosition)
    (movingPiece : ChessPiece) (u : UndoInfo) : EngineState :=
  let p1 := (st.pieces.erase toSq).insert fromSq movingPiece
  let p2 :=
    match u.capturedPiece with
    | some cap => p1.insert toSq cap
    | none => p1
  let p3 :=
    if u.isEnPassant ∧ u.capturedPawnPos.1 ≠ -1 then
      p2.insert u.capturedPawnPos (u.capturedPawn.getD ⟨.PAWN, .WHITE⟩)
    else p2
  let p4 :=
    if movingPiece.type = .KING ∧ (toSq.1 - fromSq.1).natAbs = 2 then
      let rookTo : BoardPosition :=
        if toSq.1 > fromSq.1 then (toSq.1 - 1, toSq.2) else (toSq.1 + 1, toSq.2)
      let rookFrom : BoardPosition :=
        if toSq.1 > fromSq.1 then (7, toSq.2) else (0, toSq.2)
      match p3.find? rookTo with
      | some rk => (p3.insert rookFrom rk).erase rookTo
      | none => p3
    else p3
  ⟨p4, u.oldEnPassantTarget, u.oldCastlingRights⟩

/-- The inner per-move step of `countMovesAtDepth` (`search.cpp`): make the
move, recurse (or just count when at the last depth), then unmake.  `rec`
is the recursive call at the next-smaller depth; `d` is `depth - 1`. -/
def countMovesMoveStep (fromSq toSq : BoardPosition) (movingPiece : ChessPiece)
    (d : Nat) (rec : EngineState → MoveGenCache → Nat × EngineState × MoveGenCache)
    (acc : Nat × EngineState × MoveGenCache) : Nat × EngineState × MoveGenCache :=
  match acc with
  | (cnt, stIn, cacheIn) =>
    match driverMakeMove stIn fromSq toSq movingPiece with
    | (st1, u) =>
      match (match d with | 0 => (1, st1, cacheIn) | _ + 1 => rec st1 cacheIn) with
      | (sub, st2, cache2) =>
        (cnt + sub, driverUnmakeMove st2 fromSq toSq movingPiece u, cache2)

/-- The per-piece step of `countMovesAtDepth` (`search.cpp`): generate
through the cache, filter for legality, order when `depth > 2`, then fold
the per-move step over the legal moves. -/
def countMovesPieceStep (currentTurn : PieceColor) (d : Nat)
    (rec : EngineState → MoveGenCache → Nat × EngineState × MoveGenCache)
    (acc : Nat × EngineState × MoveGenCache) (fromSq : BoardPosition) :
    Nat × EngineState × MoveGenCache :=
  match acc with
  | (cnt, st0, cache0) =>
    match getLegalMovesForPiece fromSq st0.pieces currentTurn st0.enPassantTarget
      st0.castlingRights cache0 with
    | (pseudo, cache1) =>
      match filterLegalMoves fromSq pseudo st0.pieces currentTurn st0.enPassantTarget with
      | [] => (cnt, st0, cache1)
      | m :: ms =>
        let movingPiece := (st0.pieces.find? fromSq).getD ⟨.PAWN, .WHITE⟩
        let ordered :=
          if d + 1 > 2 then
            orderMoves (m :: ms) fromSq movingPiece st0.pieces st0.enPassantTarget
          else m :: ms
        ordered.foldl (fun a t => countMovesMoveStep fromSq t movingPiece d rec a)
          (cnt, st0, cache1)

/-- `countMovesAtDepth` (`search.cpp`), the cached single-threaded perft
driver.  The global move-generation cache is cleared on entry (before the
`depth <= 0` test), the board and the file-scope en-passant /
castling-rights globals are threaded explicitly, and at `depth == 1` each
legal move is counted without recursion.  Defined by `Nat.rec` on the
depth so that concrete runs reduce definitionally; returns the node count
together with the final mutable state and cache. -/
def countMovesAtDepth (depth : Nat) (st : EngineState) (cache : MoveGenCache)
    (currentTurn : PieceColor) : Nat × EngineState × MoveGenCache :=
  Nat.rec
    (motive := fun _ => EngineState → MoveGenCache → PieceColor →
      Nat × EngineState × MoveGenCache)
    (fun st' _cache' _turn => (1, st', []))
    (fun d ih st' _cache' turn =>
      (getAllPiecesForColor st'.pieces turn).foldl
        (countMovesPieceStep turn d (fun s c => ih s c (nextTurn turn)))
        (0, st', []))
    depth st cache currentTurn

/-- Per-move step of the cache-free variant of `countMovesAtDepth`. -/
def countMovesNCMoveStep (fromSq toSq : BoardPosition) (movingPiece : ChessPiece)
    (d : Nat) (rec : EngineState → Nat × EngineState)
    (acc : Nat × EngineState) : Nat × EngineState :=
  match acc with
  | (cnt, stIn) =>
    match driverMakeMove stIn fromSq toSq movingPiece with
    | (st1, u) =>
      match (match d with | 0 => (1, st1) | _ + 1 => rec st1) with
      | (sub, st2) =>
        (cnt + sub, driverUnmakeMove st2 fromSq toSq movingPiece u)

/-- Per-piece step of the cache-free variant of `countMovesAtDepth`:
identical, but the move list is always generated fresh from the board. -/
def countMovesNCPieceStep (currentTurn : PieceColor) (d : Nat)
    (rec : EngineState → Nat × EngineState)
    (acc : Nat × EngineState) (fromSq : BoardPosition) : Nat × EngineState :=
  match acc with
  | (cnt, st0) =>
    match filterLegalMoves fromSq
        (getLegalMovesForPieceUncached fromSq st0.pieces currentTurn
          st0.enPassantTarget st0.castlingRights)
        st0.pieces currentTurn st0.enPassantTarget with
    | [] => (cnt, st0)
    | m :: ms =>
      let movingPiece := (st0.pieces.find? fromSq).getD ⟨.PAWN, .WHITE⟩
      let ordered :=
        if d + 1 > 2 then
          orderMoves (m :: ms) fromSq movingPiece st0.pieces st0.enPassantTarget
        else m :: ms
      ordered.foldl (fun a t => countMovesNCMoveStep fromSq t movingPiece d rec a)
        (cnt, st0)

/-- `countMovesAtDepth` with the move-generation cache absent: the same
recursion, but every move list is generated fresh from the current board —
the specification's "cache disabled for correctness" semantics. -/
def countMovesAtDepthNoCache (depth : Nat) (st : EngineState)
    (currentTurn : PieceColor) : Nat × EngineState :=
  Nat.rec
    (motive := fun _ => EngineState → PieceColor → Nat × EngineState)
    (fun st' _turn => (1, st'))
    (fun d ih st' turn =>
      (getAllPiecesForColor st'.pieces turn).foldl
        (countMovesNCPieceStep turn d (fun s => ih s (nextTurn turn)))
        (0, st'))
    depth st currentTurn

/-- `EXPECTED_NODES` (`search.cpp`): the reference table the program checks
its perft results against; the comments in the source call 219326 and
5832730 "our corrected value with en passant". -/
def EXPECTED_NODES : List Int :=
  [20, 400, 8902, 219326, 5832730, 119060324, 3195901860, 84998978956]

/-- The per-worker mutable state of `countMovesParallel` (`search.cpp`),
serialised: the worker-local copies `localEnPassantTarget` /
`localCastlingRights` (which the loop never restores after a move), and
the file-scope globals and shared cache that the recursive
`countMovesAtDepth` calls read and mutate. -/
structure WorkerState where
  subTotal : Nat
  localEp : BoardPosition
  localCr : CastlingRights
  globalEp : BoardPosition
  globalCr : CastlingRights
  cache : MoveGenCache
deriving Repr

/-- One root move of `processRootMoves` inside `countMovesParallel`
(`search.cpp`): board copy per move, inline castling-rights and local
en-passant updates (never restored), en-passant capture tested against the
*old local* target, castling rook shuffle, the move itself, and either the
four-fold promotion expansion or a single recursion — each recursion
running on the file-scope globals, to which the worker-local state is
never written. -/
def parallelMoveStep (threadPieces : Board) (depthMinus1 : Nat)
    (currentTurn : PieceColor) (fromSq : BoardPosition) (movingPiece : ChessPiece)
    (ws : WorkerState) (toSq : BoardPosition) : WorkerState :=
  let tempBoard := threadPieces
  let captured := tempBoard.find? toSq
  let cr1 :=
    if movingPiece.type = .KING then
      if movingPiece.color = .WHITE then
        { ws.localCr with whiteKingSide := false, whiteQueenSide := false }
      else
        { ws.localCr with blackKingSide := false, blackQueenSide := false }
    else if movingPiece.type = .ROOK then
      if movingPiece.color = .WHITE then
        if fromSq = ((0 : Int), (7 : Int)) then { ws.localCr with whiteQueenSide := false }
        else if fromSq = ((7 : Int), (7 : Int)) then { ws.localCr with whiteKingSide := false }
        else ws.localCr
      else
        if fromSq = ((0 : Int), (0 : Int)) then { ws.localCr with blackQueenSide := false }
        else if fromSq = ((7 : Int), (0 : Int)) then { ws.localCr with blackKingSide := false }
        else ws.localCr
    else ws.localCr
  let cr2 :=
    match captured with
    | some cap =>
        if cap.type = .ROOK then
          if cap.color = .WHITE then
            if toSq = ((0 : Int), (7 : Int)) then { cr1 with whiteQueenSide := false }
            else if toSq = ((7 : Int), (7 : Int)) then { cr1 with whiteKingSide := false }
            else cr1
          else
            if toSq = ((0 : Int), (0 : Int)) then { cr1 with blackQueenSide := false }
            else if toSq = ((7 : Int), (0 : Int)) then { cr1 with blackKingSide := false }
            else cr1
        else cr1
    | none => cr1
  let oldLocalEp := ws.localEp
  let newLocalEp : BoardPosition :=
    if movingPiece.type = .PAWN ∧ (fromSq.2 - toSq.2).natAbs = 2 then
      let startingRank : Int := if movingPiece.color = .WHITE then 6 else 1
      if fromSq.2 = startingRank then (fromSq.1, (fromSq.2 + toSq.2) / 2)
      else (-1, -1)
    else (-1, -1)
  let board1 :=
    if movingPiece.type = .PAWN ∧ toSq = oldLocalEp ∧ fromSq.1 ≠ toSq.1 ∧
        oldLocalEp.1 ≠ -1 then
      let capturedPawnPos : BoardPosition := (toSq.1, fromSq.2)
      match tempBoard.find? capturedPawnPos with
      | some pw =>
          if pw.type = .PAWN ∧ pw.color ≠ movingPiece.color then
            tempBoard.erase capturedPawnPos
          else tempBoard
      | none => tempBoard
    else tempBoard
  let board2 :=
    if movingPiece.type = .KING ∧ (toSq.1 - fromSq.1).natAbs = 2 then
      let row := fromSq.2
      let rookFrom : BoardPosition := if toSq.1 > fromSq.1 then (7, row) else (0, row)
      let rookTo : BoardPosition := if toSq.1 > fromSq.1 then (5, row) else (3, row)
      match board1.find? rookFrom with
      | some rook => (board1.insert rookTo rook).erase rookFrom
      | none => board1
    else board1
  let board3 := (board2.insert toSq movingPiece).erase fromSq
  let promotionRank : Int := if movingPiece.color = .WHITE then 0 else 7
  if movingPiece.type = .PAWN ∧ toSq.2 = promotionRank then
    [PieceType.QUEEN, PieceType.ROOK, PieceType.BISHOP, PieceType.KNIGHT].foldl
      (fun w promType =>
        match countMovesAtDepth depthMinus1
            ⟨board3.insert toSq ⟨promType, movingPiece.color⟩, w.globalEp, w.globalCr⟩
            w.cache (nextTurn currentTurn) with
        | (sub, stG, cacheG) =>
          { w with subTotal := w.subTotal + sub, globalEp := stG.enPassantTarget,
                   globalCr := stG.castlingRights, cache := cacheG })
      { ws with localEp := newLocalEp, localCr := cr2 }
  else
    match countMovesAtDepth depthMinus1 ⟨board3, ws.globalEp, ws.globalCr⟩
        ws.cache (nextTurn currentTurn) with
    | (sub, stG, cacheG) =>
      { ws with subTotal := ws.subTotal + sub, localEp := newLocalEp, localCr := cr2,
                globalEp := stG.enPassantTarget, globalCr := stG.castlingRights,
                cache := cacheG }

/-- One root piece of `processRootMoves` (`search.cpp`): cached generation
and the legality filter read the file-scope globals (not the worker-local
copies); the legal moves are always ordered, then folded with
`parallelMoveStep`. -/
def parallelPieceStep (threadPieces : Board) (depthMinus1 : Nat)
    (currentTurn : PieceColor) (ws : WorkerState) (fromSq : BoardPosition) :
    WorkerState :=
  match getLegalMovesForPiece fromSq threadPieces currentTurn ws.globalEp
    ws.globalCr ws.cache with
  | (pseudo, cache1) =>
    match filterLegalMoves fromSq pseudo threadPieces currentTurn ws.globalEp with
    | [] => { ws with cache := cache1 }
    | m :: ms =>
      let movingPiece := (threadPieces.find? fromSq).getD ⟨.PAWN, .WHITE⟩
      let ordered := orderMoves (m :: ms) fromSq movingPiece threadPieces ws.globalEp
      ordered.foldl (parallelMoveStep threadPieces depthMinus1 currentTurn fromSq movingPiece)
        { ws with cache := cache1 }

/-- `processRootMoves` (`search.cpp`), serialised: one worker owning a
board copy, with local en-passant / castling-rights snapshots taken from
the globals at worker start. -/
def processRootMoves (threadPieces : Board) (depthMinus1 : Nat)
    (currentTurn : PieceColor) (rootMoves : List BoardPosition)
    (globalEp : BoardPosition) (globalCr : CastlingRights) (cache : MoveGenCache) :
    WorkerState :=
  rootMoves.foldl (parallelPieceStep threadPieces depthMinus1 currentTurn)
    ⟨0, globalEp, globalCr, globalEp, globalCr, cache⟩

/-- Stable descending insertion by legal-move count, modelling the
`std::sort` by `a.second > b.second` of `countMovesParallel` (tie order is
unspecified in the source; the embedding fixes the stable order). -/
def insertByCount (x : BoardPosition × Nat) :
    List (BoardPosition × Nat) → List (BoardPosition × Nat)
  | [] => [x]
  | y :: ys => if x.2 > y.2 then x :: y :: ys else y :: insertByCount x ys

/-- `countMovesParallel` (`search.cpp`), with the worker tasks serialised
in assignment order (`numThreads` is the worker count after the source's
hardware-based capping; each root piece is processed exactly once, and the
shared globals/cache are threaded through sequentially).  For
`depth <= 3` it just runs `countMovesAtDepth` on a board copy. -/
def countMovesParallel (numThreads : Nat) (depth : Nat) (st : EngineState)
    (cache : MoveGenCache) (currentTurn : PieceColor) :
    Nat × EngineState × MoveGenCache :=
  if depth ≤ 3 then
    match countMovesAtDepth depth st cache currentTurn with
    | (n, st', cache') => (n, ⟨st.pieces, st'.enPassantTarget, st'.castlingRights⟩, cache')
  else
    let playerPieces := getAllPiecesForColor st.pieces currentTurn
    -- work-balancing pass: count legal moves per piece (through the cache)
    let counted := playerPieces.foldl (fun acc pos =>
      match getLegalMovesForPiece pos st.pieces currentTurn st.enPassantTarget
        st.castlingRights acc.2 with
      | (moves, cache') =>
        (acc.1 ++ [(pos, (filterLegalMoves pos moves st.pieces currentTurn
            st.enPassantTarget).length)], cache'))
      (([] : List (BoardPosition × Nat)), cache)
    let sorted := (counted.1.foldl (fun acc x => insertByCount x acc) []).map (fun p => p.1)
    -- round-robin assignment: worker j gets pieces j, j + numThreads, …
    let assignments := (List.range numThreads).map (fun j =>
      (sorted.enum.filter (fun pi => pi.1 % numThreads = j)).map (fun pi => pi.2))
    let final := assignments.foldl (fun acc rootMoves =>
      match rootMoves with
      | [] => acc
      | _ :: _ =>
        match processRootMoves st.pieces (depth - 1) currentTurn rootMoves
            acc.2.1 acc.2.2.1 acc.2.2.2 with
        | ws => (acc.1 + ws.subTotal, ws.globalEp, ws.globalCr, ws.cache))
      ((0 : Nat), st.enPassantTarget, st.castlingRights, counted.2)
    (final.1, ⟨st.pieces, final.2.1, final.2.2.1⟩, final.2.2.2)

/-- The fields of `ChessGameLogic` (`game_logic.h`) that feed its FEN
parser and emitter. -/
structure ChessGameLogic where
  pieces : Board
  currentTurn : PieceColor
  enPassantAvailable : Bool
  enPassantTarget : BoardPosition
  halfMoveClock : Nat
  fullMoveCounter : Nat
deriving DecidableEq, Repr

/-- Helper for `fenTokens`: split a character list at spaces. -/
def fenWordsAux : List Char → List Char → List (List Char)
  | [], acc => [acc.reverse]
  | c :: cs, acc =>
      if c = ' ' then acc.reverse :: fenWordsAux cs []
      else fenWordsAux cs (c :: acc)

/-- `std::istringstream >> token` word splitting (whitespace-separated,
empty tokens dropped). -/
def fenTokens (s : String) : List String :=
  ((fenWordsAux s.data []).filter (fun t => t ≠ [])).map String.mk

/-- One character of the piece-placement loop of
`ChessGameLogic::setupFromFEN` (`game_logic.cpp`): `/` advances the rank,
a digit skips files, a known letter places a piece, and anything else is
silently skipped (`default: continue`). -/
def fenPlacementStep (acc : Int × Int × Board) (c : Char) : Int × Int × Board :=
  match acc with
  | (rank, file, pieces) =>
    if c = '/' then (rank + 1, 0, pieces)
    else if c.isDigit then (rank, file + Int.ofNat (c.toNat - '0'.toNat), pieces)
    else
      let color := if c.isLower then PieceColor.BLACK else PieceColor.WHITE
      let lc := c.toLower
      let t? : Option PieceType :=
        if lc = 'p' then some .PAWN else if lc = 'n' then some .KNIGHT
        else if lc = 'b' then some .BISHOP else if lc = 'r' then some .ROOK
        else if lc = 'q' then some .QUEEN else if lc = 'k' then some .KING
        else none
      match t? with
      | none => (rank, file, pieces)
      | some t => (rank, file + 1, pieces.insert (file, rank) ⟨t, color⟩)

/-- `ChessGameLogic::setupFromFEN` (`game_logic.cpp`): clears the board,
reads the placement and active-color fields, and ignores everything else
("a simplified implementation").  It is total: no input makes it fail. -/
def setupFromFEN (gl : ChessGameLogic) (fen : String) : ChessGameLogic :=
  let toks := fenTokens fen
  let placementPart := toks.getD 0 ""
  let parsed := placementPart.data.foldl fenPlacementStep (0, 0, ([] : Board))
  let activeColor := toks.getD 1 ""
  { gl with
    pieces := parsed.2.2
    currentTurn := if activeColor = "w" then .WHITE else .BLACK }

/-- One rank of the emitter `ChessGameLogic::getCurrentPositionFEN`
(`game_logic.cpp`): runs of empty squares become digits, pieces become
letters (uppercase for White). -/
def fenRankString (pieces : Board) (rank : Int) : String :=
  let step := fun (acc : Nat × String) (file : Nat) =>
    match pieces.find? (Int.ofNat file, rank) with
    | some piece =>
        let base : Char :=
          match piece.type with
          | .PAWN => 'p' | .KNIGHT => 'n' | .BISHOP => 'b'
          | .ROOK => 'r' | .QUEEN => 'q' | .KING => 'k'
        let ch := if piece.color = .WHITE then base.toUpper else base
        (0, acc.2 ++ (if acc.1 > 0 then toString acc.1 else "") ++ ch.toString)
    | none => (acc.1 + 1, acc.2)
  let r := (List.range 8).foldl step (0, "")
  r.2 ++ (if r.1 > 0 then toString r.1 else "")

/-- `ChessGameLogic::getCurrentPositionFEN` (`game_logic.cpp`): emits the
placement and active color, then the literal placeholder `" - "` for
castling ("Since we don't store full castling rights, just add a
placeholder"), then the en-passant field, then the clocks. -/
def getCurrentPositionFEN (gl : ChessGameLogic) : String :=
  let boardPart := String.intercalate "/"
    ((List.range 8).map (fun rank => fenRankString gl.pieces (Int.ofNat rank)))
  let epPart :=
    if gl.enPassantAvailable then
      let fileCh := Char.ofNat ('a'.toNat + gl.enPassantTarget.1.toNat)
      let rankCh := Char.ofNat ('8'.toNat - gl.enPassantTarget.2.toNat)
      " " ++ fileCh.toString ++ rankCh.toString
    else " - "
  boardPart ++ " " ++ (if gl.currentTurn = .WHITE then "w" else "b") ++ " - " ++
    epPart ++ " " ++ toString gl.halfMoveClock ++ " " ++ toString gl.fullMoveCounter

/-- A freshly constructed `ChessGameLogic` (constructor defaults of
`game_logic.cpp`): White to move, clocks 0 and 1, no en-passant. -/
def initialGameLogic : ChessGameLogic :=
  ⟨[], .WHITE, false, (-1, -1), 0, 1⟩

/-! ### Concrete positions used in the theorems -/

/-- Shorthand for building a `ChessPiece`. -/
def pc (t : PieceType) (c : PieceColor) : ChessPiece := ⟨t, c⟩

/-- The initial chess position
(`rnbqkbnr/pppppppp/8/8/8/8/PPPPPPPP/RNBQKBNR`), as the key-sorted map. -/
def startBoard : Board :=
  [(((0:Int),(0:Int)), pc .ROOK .BLACK), (((0:Int),(1:Int)), pc .PAWN .BLACK),
   (((0:Int),(6:Int)), pc .PAWN .WHITE), (((0:Int),(7:Int)), pc .ROOK .WHITE),
   (((1:Int),(0:Int)), pc .KNIGHT .BLACK), (((1:Int),(1:Int)), pc .PAWN .BLACK),
   (((1:Int),(6:Int)), pc .PAWN .WHITE), (((1:Int),(7:Int)), pc .KNIGHT .WHITE),
   (((2:Int),(0:Int)), pc .BISHOP .BLACK), (((2:Int),(1:Int)), pc .PAWN .BLACK),
   (((2:Int),(6:Int)), pc .PAWN .WHITE), (((2:Int),(7:Int)), pc .BISHOP .WHITE),
   (((3:Int),(0:Int)), pc .QUEEN .BLACK), (((3:Int),(1:Int)), pc .PAWN .BLACK),
   (((3:Int),(6:Int)), pc .PAWN .WHITE), (((3:Int),(7:Int)), pc .QUEEN .WHITE),
   (((4:Int),(0:Int)), pc .KING .BLACK), (((4:Int),(1:Int)), pc .PAWN .BLACK),
   (((4:Int),(6:Int)), pc .PAWN .WHITE), (((4:Int),(7:Int)), pc .KING .WHITE),
   (((5:Int),(0:Int)), pc .BISHOP .BLACK), (((5:Int),(1:Int)), pc .PAWN .BLACK),
   (((5:Int),(6:Int)), pc .PAWN .WHITE), (((5:Int),(7:Int)), pc .BISHOP .WHITE),
   (((6:Int),(0:Int)), pc .KNIGHT .BLACK), (((6:Int),(1:Int)), pc .PAWN .BLACK),
   (((6:Int),(6:Int)), pc .PAWN .WHITE), (((6:Int),(7:Int)), pc .KNIGHT .WHITE),
   (((7:Int),(0:Int)), pc .ROOK .BLACK), (((7:Int),(1:Int)), pc .PAWN .BLACK),
   (((7:Int),(6:Int)), pc .PAWN .WHITE), (((7:Int),(7:Int)), pc .ROOK .WHITE)]

/-- The initial position with full castling rights and no en-passant
target, as produced by the FEN parsing in `calculateMovesForPosition`. -/
def startState : EngineState := ⟨startBoard, (-1, -1), ⟨true, true, true, true⟩⟩

/-- White Pa2, Ke1, Rh1; Black Ka8, Nf1 — a position in which, at depth 3,
the parent re-uses a cached king move list generated on a descendant board
(after ...Nf1-h2) on which kingside castling was generated; replaying that
castle on the parent board (knight back on f1) drives the rook shuffle
through the occupied f1 square and the unmake erases the knight. -/
def staleBoard : Board :=
  [(((0:Int),(0:Int)), pc .KING .BLACK),
   (((0:Int),(6:Int)), pc .PAWN .WHITE),
   (((4:Int),(7:Int)), pc .KING .WHITE),
   (((5:Int),(7:Int)), pc .KNIGHT .BLACK),
   (((7:Int),(7:Int)), pc .ROOK .WHITE)]

/-- `staleBoard` with full castling rights and no en-passant target. -/
def staleState : EngineState := ⟨staleBoard, (-1, -1), ⟨true, true, true, true⟩⟩

/-- White Pa7, Kh1; Black Kh3: White to move can promote at the root. -/
def promoBoard : Board :=
  [(((0:Int),(1:Int)), pc .PAWN .WHITE),
   (((7:Int),(5:Int)), pc .KING .BLACK),
   (((7:Int),(7:Int)), pc .KING .WHITE)]

/-- `promoBoard` wrapped as engine state (no castling rights, no EP). -/
def promoState : EngineState := ⟨promoBoard, (-1, -1), ⟨false, false, false, false⟩⟩

/-- White Pa7, Ke1; Black Kh8: the a7-pawn's only move lands on the last
rank. -/
def promo1Board : Board :=
  [(((0:Int),(1:Int)), pc .PAWN .WHITE),
   (((4:Int),(7:Int)), pc .KING .WHITE),
   (((7:Int),(0:Int)), pc .KING .BLACK)]

/-- `promo1Board` wrapped as engine state. -/
def promo1State : EngineState := ⟨promo1Board, (-1, -1), ⟨false, false, false, false⟩⟩

/-- Black Ke8 and Rh8 (castling-eligible), White Ke1 and Qh7: White to
move can capture the h8 rook. -/
def rightsBoard : Board :=
  [(((4:Int),(0:Int)), pc .KING .BLACK), (((4:Int),(7:Int)), pc .KING .WHITE),
   (((7:Int),(0:Int)), pc .ROOK .BLACK), (((7:Int),(1:Int)), pc .QUEEN .WHITE)]

/-- `rightsBoard` with all four castling rights set. -/
def rightsState : EngineState := ⟨rightsBoard, (-1, -1), ⟨true, true, true, true⟩⟩

/-- White pawn e4, black knight d3: the pawn attacks d5/f5, not d3. -/
def attackBoardA : Board :=
  [(((3:Int),(5:Int)), pc .KNIGHT .BLACK), (((4:Int),(4:Int)), pc .PAWN .WHITE)]

/-- White pawn e4, black knight d5: the pawn genuinely attacks d5. -/
def attackBoardB : Board :=
  [(((3:Int),(3:Int)), pc .KNIGHT .BLACK), (((4:Int),(4:Int)), pc .PAWN .WHITE)]

/-- Black pawn a5, white pawn b5, kings h8/h1; with en-passant target a6
this is the canonical en-passant-capture situation for White. -/
def epBoard : Board :=
  [(((0:Int),(3:Int)), pc .PAWN .BLACK), (((1:Int),(3:Int)), pc .PAWN .WHITE),
   (((7:Int),(0:Int)), pc .KING .BLACK), (((7:Int),(7:Int)), pc .KING .WHITE)]

/-- `epBoard` with the en-passant target a6 = (0, 2). -/
def epState : EngineState := ⟨epBoard, (0, 2), ⟨false, false, false, false⟩⟩


/-- `staleBoard` after the black knight retreats f1-h2: the board of the
descendant node whose move generation poisons the cache for the parent. -/
def staleBoardNh2 : Board :=
  (staleBoard.erase ((5:Int),(7:Int))).insert ((7:Int),(6:Int)) (pc .KNIGHT .BLACK)

/-- `staleBoardNh2` with full castling rights and no en-passant target. -/
def staleStateNh2 : EngineState := ⟨staleBoardNh2, (-1, -1), ⟨true, true, true, true⟩⟩

/-- The move-generation cache a depth-1 `countMovesAtDepth` run on
`staleStateNh2` leaves behind: its white-king entry was generated on a
board where f1 and g1 are empty, so it contains the kingside castle. -/
def staleCache : MoveGenCache := (countMovesAtDepth 1 staleStateNh2 [] .WHITE).2.2

/-- The canonical FEN of the initial position. -/
def startFEN : String := "rnbqkbnr/pppppppp/8/8/8/8/PPPPPPPP/RNBQKBNR w KQkq - 0 1"


/-! ### Lemmas about the ordered-map embedding -/

theorem posLt_irrefl (p : BoardPosition) : posLt p p = false := by
  simp [posLt]

theorem posLt_ne {p q : BoardPosition} (h : posLt p q = true) : p ≠ q := by
  rintro rfl
  rw [posLt_irrefl] at h
  exact Bool.false_ne_true h

theorem posLt_trans {p q r : BoardPosition} (h1 : posLt p q = true)
    (h2 : posLt q r = true) : posLt p r = true := by
  rcases p with ⟨a, b⟩; rcases q with ⟨c, d⟩; rcases r with ⟨e, f⟩
  simp only [posLt, Bool.or_eq_true, Bool.and_eq_true, decide_eq_true_eq, beq_iff_eq] at *
  omega

theorem posLt_asymm {p q : BoardPosition} (h1 : posLt p q = true)
    (h2 : posLt q p = true) : False := by
  have h := posLt_trans h1 h2
  rw [posLt_irrefl] at h
  exact Bool.false_ne_true h

theorem posLt_total {p q : BoardPosition} (h1 : ¬ posLt p q = true) (h2 : p ≠ q) :
    posLt q p = true := by
  rcases p with ⟨a, b⟩; rcases q with ⟨c, d⟩
  simp only [posLt, Bool.or_eq_true, Bool.and_eq_true, decide_eq_true_eq, beq_iff_eq] at *
  by_cases hac : a = c
  · subst hac
    by_cases hbd : b = d
    · subst hbd
      exact absurd rfl h2
    · refine Or.inr ⟨rfl, ?_⟩
      rcases lt_trichotomy b d with h | h | h
      · exact absurd (Or.inr ⟨rfl, h⟩) h1
      · exact absurd h hbd
      · exact h
  · rcases lt_trichotomy a c with h | h | h
    · exact absurd (Or.inl h) h1
    · exact absurd h hac
    · exact Or.inl h

namespace Board

theorem find?_insert (b : Board) (k : BoardPosition) (v : ChessPiece)
    (j : BoardPosition) :
    (b.insert k v).find? j = if j = k then some v else b.find? j := by
  induction b with
  | nil => simp [Board.insert, Board.find?]
  | cons e rest ih =>
    obtain ⟨k', v'⟩ := e
    by_cases hlt : posLt k' k = true
    · simp only [Board.insert]
      rw [if_pos hlt]
      by_cases hj : j = k'
      · subst hj
        have hne : j ≠ k := posLt_ne hlt
        simp [Board.find?, hne]
      · simp [Board.find?, hj, ih]
    · by_cases hk : k = k'
      · subst hk
        simp only [Board.insert]
        rw [if_neg hlt, if_pos trivial]
        by_cases hj : j = k <;> simp [Board.find?, hj]
      · simp only [Board.insert]
        rw [if_neg hlt, if_neg hk]
        by_cases hj : j = k <;> simp [Board.find?, hj]

theorem mem_insert {b : Board} {k : BoardPosition} {v : ChessPiece}
    {e : BoardPosition × ChessPiece} (h : e ∈ b.insert k v) :
    e = (k, v) ∨ e ∈ b := by
  induction b with
  | nil =>
    simp only [Board.insert] at h
    exact Or.inl (List.mem_singleton.mp h)
  | cons e' rest ih =>
    obtain ⟨k', v'⟩ := e'
    by_cases hlt : posLt k' k = true
    · simp only [Board.insert] at h
      rw [if_pos hlt] at h
      rcases List.mem_cons.mp h with h | h
      · exact Or.inr (List.mem_cons.mpr (Or.inl h))
      · rcases ih h with h | h
        · exact Or.inl h
        · exact Or.inr (List.mem_cons.mpr (Or.inr h))
    · by_cases hk : k = k'
      · subst hk
        simp only [Board.insert] at h
        rw [if_neg hlt, if_pos trivial] at h
        rcases List.mem_cons.mp h with h | h
        · exact Or.inl h
        · exact Or.inr (List.mem_cons.mpr (Or.inr h))
      · simp only [Board.insert] at h
        rw [if_neg hlt, if_neg hk] at h
        rcases List.mem_cons.mp h with h | h
        · exact Or.inl h
        · exact Or.inr h

theorem erase_sublist (b : Board) (k : BoardPosition) :
    List.Sublist (b.erase k) b := by
  induction b with
  | nil => simp [Board.erase]
  | cons e rest ih =>
    obtain ⟨k', v'⟩ := e
    by_cases hk : k = k'
    · simp only [Board.erase]
      rw [if_pos hk]
      exact List.sublist_cons_self _ _
    · simp only [Board.erase]
      rw [if_neg hk]
      exact ih.cons₂ _

theorem wf_erase {b : Board} (hwf : Wf b) (k : BoardPosition) : Wf (b.erase k) :=
  List.Pairwise.sublist (erase_sublist b k) hwf

theorem wf_insert {b : Board} (hwf : Wf b) (k : BoardPosition) (v : ChessPiece) :
    Wf (b.insert k v) := by
  induction b with
  | nil => simp [Board.insert, Wf]
  | cons e rest ih =>
    obtain ⟨k', v'⟩ := e
    rcases List.pairwise_cons.mp hwf with ⟨hbound, hrest⟩
    by_cases hlt : posLt k' k = true
    · simp only [Board.insert]
      rw [if_pos hlt]
      refine List.pairwise_cons.mpr ⟨?_, ih hrest⟩
      intro e he
      rcases mem_insert he with rfl | he
      · exact hlt
      · exact hbound e he
    · by_cases hk : k = k'
      · subst hk
        simp only [Board.insert]
        rw [if_neg hlt, if_pos trivial]
        exact List.pairwise_cons.mpr ⟨hbound, hrest⟩
      · simp only [Board.insert]
        rw [if_neg hlt, if_neg hk]
        refine List.pairwise_cons.mpr ⟨?_, List.pairwise_cons.mpr ⟨hbound, hrest⟩⟩
        intro e he
        rcases List.mem_cons.mp he with rfl | he
        · exact posLt_total hlt (fun h => hk h.symm)
        · exact posLt_trans (posLt_total hlt (fun h => hk h.symm)) (hbound e he)

theorem find?_eq_none_of_forall_lt {b : Board} {k : BoardPosition}
    (h : ∀ e ∈ b, posLt k e.1 = true) : b.find? k = none := by
  induction b with
  | nil => rfl
  | cons e rest ih =>
    obtain ⟨k', v'⟩ := e
    have hne : k ≠ k' := posLt_ne (h (k', v') (List.mem_cons_self _ _))
    simp only [Board.find?]
    rw [if_neg hne]
    exact ih (fun e he => h e (List.mem_cons_of_mem _ he))

theorem find?_erase {b : Board} (hwf : Wf b) (k j : BoardPosition) :
    (b.erase k).find? j = if j = k then none else b.find? j := by
  induction b with
  | nil => simp [Board.erase, Board.find?]
  | cons e rest ih =>
    obtain ⟨k', v'⟩ := e
    rcases List.pairwise_cons.mp hwf with ⟨hbound, hrest⟩
    by_cases hk : k = k'
    · subst hk
      simp only [Board.erase]
      rw [if_pos trivial]
      by_cases hj : j = k
      · subst hj
        rw [if_pos rfl]
        exact find?_eq_none_of_forall_lt hbound
      · rw [if_neg hj]
        simp only [Board.find?]
        rw [if_neg hj]
    · simp only [Board.erase]
      rw [if_neg hk]
      by_cases hj : j = k'
      · subst hj
        have hne : j ≠ k := fun h => hk h.symm
        simp only [Board.find?]
        rw [if_neg hne, if_pos trivial, if_pos trivial]
      · simp only [Board.find?]
        rw [if_neg hj, if_neg hj, ih hrest]

theorem find?_some_mem {b : Board} {k : BoardPosition} {v : ChessPiece}
    (h : b.find? k = some v) : (k, v) ∈ b := by
  induction b with
  | nil => simp [Board.find?] at h
  | cons e rest ih =>
    obtain ⟨k', v'⟩ := e
    by_cases hk : k = k'
    · subst hk
      simp only [Board.find?] at h
      rw [if_pos trivial] at h
      injection h with h
      subst h
      exact List.mem_cons_self _ _
    · simp only [Board.find?] at h
      rw [if_neg hk] at h
      exact List.mem_cons_of_mem _ (ih h)

theorem find?_eq_some_of_mem {b : Board} (hwf : Wf b) {k : BoardPosition}
    {v : ChessPiece} (hm : (k, v) ∈ b) : b.find? k = some v := by
  induction b with
  | nil => simp at hm
  | cons e rest ih =>
    obtain ⟨k', v'⟩ := e
    rcases List.pairwise_cons.mp hwf with ⟨hbound, hrest⟩
    rcases List.mem_cons.mp hm with h | h
    · cases h
      simp [Board.find?]
    · have hne : k ≠ k' := fun he => posLt_ne (hbound _ h) (by rw [he])
      simp only [Board.find?]
      rw [if_neg hne]
      exact ih hrest h

theorem ext_wf {b₁ b₂ : Board} (h1 : Wf b₁) (h2 : Wf b₂)
    (h : ∀ k, b₁.find? k = b₂.find? k) : b₁ = b₂ := by
  induction b₁ generalizing b₂ with
  | nil =>
    cases b₂ with
    | nil => rfl
    | cons e rest =>
      obtain ⟨k, v⟩ := e
      have hk := h k
      simp [Board.find?] at hk
  | cons e t₁ ih =>
    obtain ⟨k₁, v₁⟩ := e
    cases b₂ with
    | nil =>
      have hk := h k₁
      simp [Board.find?] at hk
    | cons e₂ t₂ =>
      obtain ⟨k₂, v₂⟩ := e₂
      rcases List.pairwise_cons.mp h1 with ⟨hb1, ht1⟩
      rcases List.pairwise_cons.mp h2 with ⟨hb2, ht2⟩
      have hk : k₁ = k₂ := by
        by_contra hne
        have hne' : k₂ ≠ k₁ := fun he => hne he.symm
        have ha : Board.find? ((k₂, v₂) :: t₂) k₁ = some v₁ := by
          rw [← h k₁]
          simp [Board.find?]
        have hb : Board.find? ((k₁, v₁) :: t₁) k₂ = some v₂ := by
          rw [h k₂]
          simp [Board.find?]
        simp only [Board.find?] at ha hb
        rw [if_neg hne] at ha
        rw [if_neg hne'] at hb
        exact posLt_asymm (hb2 _ (find?_some_mem ha)) (hb1 _ (find?_some_mem hb))
      subst hk
      have hv : v₁ = v₂ := by
        have hk := h k₁
        simp only [Board.find?] at hk
        rw [if_pos trivial, if_pos trivial] at hk
        injection hk
      subst hv
      refine congrArg _ (ih ht1 ht2 ?_)
      intro k
      by_cases hk : k = k₁
      · subst hk
        rw [find?_eq_none_of_forall_lt hb1, find?_eq_none_of_forall_lt hb2]
      · have hh := h k
        simp only [Board.find?] at hh
        rw [if_neg hk, if_neg hk] at hh
        exact hh

end Board

/-! ### Properties of move generation -/

/-- Inside `countMovesAtDepth` the en-passant test can never fire: the
global target has already been overwritten by `calculateEnPassantTarget`
before `isEnPassantCapture` reads it. -/
theorem epTarget_fst_of_ne {mp : ChessPiece} {fromSq toSq : BoardPosition}
    (h1 : (calculateEnPassantTarget mp fromSq toSq).1 ≠ -1) :
    (calculateEnPassantTarget mp fromSq toSq).1 = fromSq.1 := by
  unfold calculateEnPassantTarget at h1 ⊢
  by_cases hc : (mp.type = PieceType.PAWN ∧ (fromSq.2 - toSq.2).natAbs = 2)
  · rw [if_pos hc] at h1 ⊢
    by_cases hs : fromSq.2 = (if mp.color = PieceColor.WHITE then (6 : Int) else 1)
    · rw [if_pos hs]
    · rw [if_neg hs] at h1
      simp at h1
  · rw [if_neg hc] at h1
    simp at h1

theorem isEnPassantCapture_after_calculate (mp : ChessPiece)
    (fromSq toSq : BoardPosition) (b : Board) :
    isEnPassantCapture mp fromSq toSq b (calculateEnPassantTarget mp fromSq toSq) = false := by
  unfold isEnPassantCapture
  have hg : mp.type ≠ PieceType.PAWN ∨
      (calculateEnPassantTarget mp fromSq toSq).1 = -1 ∨
      (calculateEnPassantTarget mp fromSq toSq).2 = -1 ∨
      toSq ≠ calculateEnPassantTarget mp fromSq toSq ∨
      fromSq.1 = toSq.1 := by
    by_cases h1 : (calculateEnPassantTarget mp fromSq toSq).1 = -1
    · exact Or.inr (Or.inl h1)
    · by_cases ht : toSq = calculateEnPassantTarget mp fromSq toSq
      · refine Or.inr (Or.inr (Or.inr (Or.inr ?_)))
        rw [ht]
        exact (epTarget_fst_of_ne h1).symm
      · exact Or.inr (Or.inr (Or.inr (Or.inl ht)))
  rw [if_pos hg]

theorem mem_rayMoves {pieces : Board} {myColor : PieceColor} {col row dx dy : Int} :
    ∀ (fuel : Nat) (i : Int) {t : BoardPosition},
      t ∈ rayMoves pieces myColor col row dx dy fuel i →
      ∃ j : Int, i ≤ j ∧ t = (col + j * dx, row + j * dy) := by
  intro fuel
  induction fuel with
  | zero =>
    intro i t h
    simp [rayMoves] at h
  | succ n ih =>
    intro i t h
    simp only [rayMoves] at h
    split at h
    · simp at h
    · split at h
      · rcases List.mem_cons.mp h with h | h
        · exact ⟨i, le_refl i, h⟩
        · obtain ⟨j, hj, ht⟩ := ih (i + 1) h
          exact ⟨j, by omega, ht⟩
      · split at h
        · rcases List.mem_singleton.mp h with rfl
          exact ⟨i, le_refl i, rfl⟩
        · simp at h

theorem mem_slideMoves {pieces : Board} {myColor : PieceColor} {col row : Int}
    {dirs : List (Int × Int)} {t : BoardPosition}
    (h : t ∈ slideMoves pieces myColor col row dirs) :
    ∃ d ∈ dirs, ∃ j : Int, 1 ≤ j ∧ t = (col + j * d.1, row + j * d.2) := by
  simp only [slideMoves, List.mem_flatMap] at h
  obtain ⟨d, hd, hm⟩ := h
  obtain ⟨j, hj, ht⟩ := mem_rayMoves 7 1 hm
  exact ⟨d, hd, j, hj, ht⟩

theorem mem_offsetMoves {pieces : Board} {piece : ChessPiece} {col row : Int}
    {offs : List (Int × Int)} {t : BoardPosition}
    (h : t ∈ offsetMoves pieces piece col row offs) :
    ∃ d ∈ offs, t = (col + d.1, row + d.2) := by
  simp only [offsetMoves, List.mem_filterMap] at h
  obtain ⟨d, hd, hsome⟩ := h
  refine ⟨d, hd, ?_⟩
  split at hsome
  · split at hsome
    · exact (Option.some_inj.mp hsome).symm
    · split at hsome
      · exact (Option.some_inj.mp hsome).symm
      · simp at hsome
  · simp at hsome


set_option maxHeartbeats 1000000 in
theorem pawnMoves_snd_ne {pieces : Board} {piece : ChessPiece} {col row : Int}
    {ep t : BoardPosition} (h : t ∈ pawnMoves pieces piece col row ep) :
    t.2 ≠ row := by
  intro hrow
  simp only [pawnMoves] at h
  set d : Int := if piece.color = PieceColor.WHITE then -1 else 1 with hdef
  have hd : d = -1 ∨ d = 1 := by rw [hdef]; split <;> simp
  split at h
  case isFalse => exact absurd h (List.not_mem_nil t)
  simp only [List.mem_append] at h
  have hcap : ∀ c : Int, t ∈ (match pieces.find? (c, row + d) with
      | some target => if target.color ≠ piece.color then [(c, row + d)] else []
      | none => []) → False := by
    intro c hc
    split at hc
    · split at hc
      · have := List.mem_singleton.mp hc
        rw [this] at hrow
        simp only at hrow
        omega
      · exact absurd hc (List.not_mem_nil t)
    · exact absurd hc (List.not_mem_nil t)
  have hep : ∀ c : Int, t ∈ (if ep.1 ≠ -1 ∧ ep.1 = c ∧ ep.2 = row + d then
      (match pieces.find? (c, row) with
        | some pawn =>
            if pawn.type = PieceType.PAWN ∧ pawn.color ≠ piece.color then [ep] else []
        | none => []) else []) → False := by
    intro c hc
    split at hc
    · rename_i hcond
      split at hc
      · split at hc
        · have := List.mem_singleton.mp hc
          rw [this] at hrow
          omega
        · exact absurd hc (List.not_mem_nil t)
      · exact absurd hc (List.not_mem_nil t)
    · exact absurd hc (List.not_mem_nil t)
  rcases h with (h | h) | h
  · -- forward moves
    split at h
    · rcases List.mem_cons.mp h with heq | h
      · rw [heq] at hrow
        simp only at hrow
        omega
      · (repeat' split at h) <;>
          first
            | exact absurd h (List.not_mem_nil t)
            | (have hsing := List.mem_singleton.mp h
               rw [hsing] at hrow
               simp only at hrow
               omega)
    · exact absurd h (List.not_mem_nil t)
  · -- left captures
    split at h
    · rcases List.mem_append.mp h with h | h
      · exact hcap _ h
      · exact hep _ h
    · exact absurd h (List.not_mem_nil t)
  · -- right captures
    split at h
    · rcases List.mem_append.mp h with h | h
      · exact hcap _ h
      · exact hep _ h
    · exact absurd h (List.not_mem_nil t)

theorem mem_kingCastleMoves {pieces : Board} {piece : ChessPiece}
    {cr : CastlingRights} {col row : Int} {t : BoardPosition}
    (h : t ∈ kingCastleMoves pieces piece cr col row) :
    col = 4 ∧
    ((t = (col + 2, row) ∧ ∃ rook, pieces.find? (7, row) = some rook ∧
        rook.type = PieceType.ROOK ∧ rook.color = piece.color ∧
        pieces.find? (5, row) = none ∧ pieces.find? (6, row) = none) ∨
     (t = (col - 2, row) ∧ ∃ rook, pieces.find? (0, row) = some rook ∧
        rook.type = PieceType.ROOK ∧ rook.color = piece.color ∧
        pieces.find? (1, row) = none ∧ pieces.find? (2, row) = none ∧
        pieces.find? (3, row) = none)) := by
  simp only [kingCastleMoves] at h
  split at h
  · rename_i hguard
    have hcol : col = 4 := by
      rcases hguard with ⟨_, _, h4⟩ | ⟨_, _, h4⟩ <;> exact h4
    refine ⟨hcol, ?_⟩
    have hab := List.mem_append.mp h
    clear h
    rcases hab with h | h
    · refine Or.inl ?_
      (repeat' split at h) <;>
        first
          | exact absurd h (List.not_mem_nil t)
          | (have he := List.mem_singleton.mp h
             clear h
             subst he
             rename_i rook hrk hcond
             exact ⟨rfl, rook, hrk, hcond.1, hcond.2.1, hcond.2.2.1, hcond.2.2.2⟩)
    · refine Or.inr ?_
      (repeat' split at h) <;>
        first
          | exact absurd h (List.not_mem_nil t)
          | (have he := List.mem_singleton.mp h
             clear h
             subst he
             rename_i rook hrk hcond
             exact ⟨rfl, rook, hrk, hcond.1, hcond.2.1, hcond.2.2.1,
               hcond.2.2.2.1, hcond.2.2.2.2⟩)
  · exact absurd h (List.not_mem_nil t)

theorem gen_ne {fromSq : BoardPosition} {pieces : Board} {turn : PieceColor}
    {ep : BoardPosition} {cr : CastlingRights} {t : BoardPosition}
    (h : t ∈ getLegalMovesForPieceUncached fromSq pieces turn ep cr) :
    t ≠ fromSq := by
  obtain ⟨col, row⟩ := fromSq
  simp only [getLegalMovesForPieceUncached] at h
  split at h
  · exact absurd h (List.not_mem_nil t)
  · rename_i piece hpiece
    split at h
    · exact absurd h (List.not_mem_nil t)
    · split at h
      · intro he
        subst he
        exact pawnMoves_snd_ne h rfl
      · intro he
        subst he
        obtain ⟨d, hd, ht⟩ := mem_offsetMoves h
        rw [Prod.mk.injEq] at ht
        have hd0 : d.1 ≠ 0 ∨ d.2 ≠ 0 := by fin_cases hd <;> simp
        omega
      · intro he
        subst he
        obtain ⟨d, hd, j, hj, ht⟩ := mem_slideMoves h
        rw [Prod.mk.injEq] at ht
        have h1 : j * d.1 = 0 := by omega
        have h2 : j * d.2 = 0 := by omega
        have hd0 : d.1 ≠ 0 ∨ d.2 ≠ 0 := by fin_cases hd <;> simp
        rcases Int.mul_eq_zero.mp h1 with hj0 | hx
        · omega
        rcases Int.mul_eq_zero.mp h2 with hj0 | hy
        · omega
        rcases hd0 with hc | hc <;> exact hc (by assumption)
      · intro he
        subst he
        obtain ⟨d, hd, j, hj, ht⟩ := mem_slideMoves h
        rw [Prod.mk.injEq] at ht
        have h1 : j * d.1 = 0 := by omega
        have h2 : j * d.2 = 0 := by omega
        have hd0 : d.1 ≠ 0 ∨ d.2 ≠ 0 := by fin_cases hd <;> simp
        rcases Int.mul_eq_zero.mp h1 with hj0 | hx
        · omega
        rcases Int.mul_eq_zero.mp h2 with hj0 | hy
        · omega
        rcases hd0 with hc | hc <;> exact hc (by assumption)
      · intro he
        subst he
        obtain ⟨d, hd, j, hj, ht⟩ := mem_slideMoves h
        rw [Prod.mk.injEq] at ht
        have h1 : j * d.1 = 0 := by omega
        have h2 : j * d.2 = 0 := by omega
        have hd0 : d.1 ≠ 0 ∨ d.2 ≠ 0 := by fin_cases hd <;> simp
        rcases Int.mul_eq_zero.mp h1 with hj0 | hx
        · omega
        rcases Int.mul_eq_zero.mp h2 with hj0 | hy
        · omega
        rcases hd0 with hc | hc <;> exact hc (by assumption)
      · intro he
        subst he
        rcases List.mem_append.mp h with h | h
        · obtain ⟨d, hd, ht⟩ := mem_offsetMoves h
          rw [Prod.mk.injEq] at ht
          have hd0 : d.1 ≠ 0 ∨ d.2 ≠ 0 := by fin_cases hd <;> simp
          omega
        · obtain ⟨hcol, hcase⟩ := mem_kingCastleMoves h
          rcases hcase with ⟨ht, _⟩ | ⟨ht, _⟩ <;>
            (rw [Prod.mk.injEq] at ht; omega)

/-- Claim C2 (corrected): for a well-formed engine state, a piece standing
on the source square and a destination generated for it by the engine's own
move generator, the perft driver's make step followed by the matching
unmake step restores the board map and the en-passant target exactly, but
restores the castling rights only to their value *after*
`updateCastlingRightsForCapture` has run: the driver snapshots the rights
after the rook-capture update, so a capture of a rook on its home square
permanently clears the captured side's right.  (The original claim, that
the complete pre-move state is restored including rook-capture rights, is
refuted by `rookCaptureRights_not_restored`.) -/
theorem driverMakeUnmakeRoundtrip (st : EngineState) (fromSq toSq : BoardPosition)
    (mp : ChessPiece) (turn : PieceColor)
    (hwf : Board.Wf st.pieces)
    (hfind : st.pieces.find? fromSq = some mp)
    (hmem : toSq ∈ getLegalMovesForPieceUncached fromSq st.pieces turn
      st.enPassantTarget st.castlingRights) :
    driverUnmakeMove (driverMakeMove st fromSq toSq mp).1 fromSq toSq mp
        (driverMakeMove st fromSq toSq mp).2 =
      ⟨st.pieces, st.enPassantTarget,
        match st.pieces.find? toSq with
        | some cap => updateCastlingRightsForCapture toSq cap st.castlingRights
        | none => st.castlingRights⟩ := by
  obtain ⟨c, r⟩ := fromSq
  have hne : toSq ≠ (c, r) := gen_ne hmem
  have hEP := isEnPassantCapture_after_calculate mp (c, r) toSq st.pieces
  by_cases hcastle : mp.type = PieceType.KING ∧ (toSq.1 - (c, r).1).natAbs = 2
  · -- castling move
    obtain ⟨hking, habs⟩ := hcastle
    simp only [getLegalMovesForPieceUncached, hfind] at hmem
    split at hmem
    · exact absurd hmem (List.not_mem_nil toSq)
    · simp only [hking] at hmem
      rcases List.mem_append.mp hmem with hoff | hcas
      · exfalso
        obtain ⟨d, hd, ht⟩ := mem_offsetMoves hoff
        rw [ht] at habs
        simp only at habs
        fin_cases hd <;> simp at habs
      · obtain ⟨hc4, hcase⟩ := mem_kingCastleMoves hcas
        subst hc4
        rcases hcase with ⟨ht, rook, hrk, hrkt, hrkc, h5, h6⟩ |
          ⟨ht, rook, hrk, hrkt, hrkc, h1e, h2e, h3e⟩
        · -- kingside: toSq = (6, r)
          have ht' : toSq = ((6 : Int), r) := by rw [ht]; simp
          subst ht'
          have hwB2 : Board.Wf ((st.pieces.erase ((4 : Int), r)).insert ((6 : Int), r) mp) :=
            Board.wf_insert (Board.wf_erase hwf _) _ _
          have hwB3 : Board.Wf ((((st.pieces.erase ((4 : Int), r)).insert ((6 : Int), r)
              mp).erase ((7 : Int), r)).insert ((5 : Int), r) rook) :=
            Board.wf_insert (Board.wf_erase hwB2 _) _ _
          have hwp1 : Board.Wf (((((st.pieces.erase ((4 : Int), r)).insert ((6 : Int), r)
              mp).erase ((7 : Int), r)).insert ((5 : Int), r) rook).erase ((6 : Int), r)
              |>.insert ((4 : Int), r) mp) :=
            Board.wf_insert (Board.wf_erase hwB3 _) _ _
          have hwp2 : Board.Wf ((((((st.pieces.erase ((4 : Int), r)).insert ((6 : Int), r)
              mp).erase ((7 : Int), r)).insert ((5 : Int), r) rook).erase ((6 : Int), r)
              |>.insert ((4 : Int), r) mp).insert ((7 : Int), r) rook) :=
            Board.wf_insert hwp1 _ _
          simp only [driverMakeMove, driverUnmakeMove]
          simp [hEP, hking, hrk, h5, h6, handleCastling, isCastlingMove,
            Board.find?_insert, Board.find?_erase hwf, Board.find?_erase hwB2,
            Board.find?_erase hwB3, EngineState.mk.injEq]
          refine Board.ext_wf (Board.wf_erase hwp2 _) hwf ?_
          intro k
          by_cases hk5 : k = ((5 : Int), r) <;> by_cases hk7 : k = ((7 : Int), r) <;>
            by_cases hk4 : k = ((4 : Int), r) <;> by_cases hk6 : k = ((6 : Int), r) <;>
            simp_all [Board.find?_insert, Board.find?_erase hwp2,
              Board.find?_erase hwB3, Board.find?_erase hwB2, Board.find?_erase hwf]
        · -- queenside: toSq = (2, r)
          have ht' : toSq = ((2 : Int), r) := by rw [ht]; simp
          subst ht'
          have hwB2 : Board.Wf ((st.pieces.erase ((4 : Int), r)).insert ((2 : Int), r) mp) :=
            Board.wf_insert (Board.wf_erase hwf _) _ _
          have hwB3 : Board.Wf ((((st.pieces.erase ((4 : Int), r)).insert ((2 : Int), r)
              mp).erase ((0 : Int), r)).insert ((3 : Int), r) rook) :=
            Board.wf_insert (Board.wf_erase hwB2 _) _ _
          have hwp1 : Board.Wf (((((st.pieces.erase ((4 : Int), r)).insert ((2 : Int), r)
              mp).erase ((0 : Int), r)).insert ((3 : Int), r) rook).erase ((2 : Int), r)
              |>.insert ((4 : Int), r) mp) :=
            Board.wf_insert (Board.wf_erase hwB3 _) _ _
          have hwp2 : Board.Wf ((((((st.pieces.erase ((4 : Int), r)).insert ((2 : Int), r)
              mp).erase ((0 : Int), r)).insert ((3 : Int), r) rook).erase ((2 : Int), r)
              |>.insert ((4 : Int), r) mp).insert ((0 : Int), r) rook) :=
            Board.wf_insert hwp1 _ _
          simp only [driverMakeMove, driverUnmakeMove]
          simp [hEP, hking, hrk, h1e, h2e, h3e, handleCastling, isCastlingMove,
            Board.find?_insert, Board.find?_erase hwf, Board.find?_erase hwB2,
            Board.find?_erase hwB3, EngineState.mk.injEq]
          refine Board.ext_wf (Board.wf_erase hwp2 _) hwf ?_
          intro k
          by_cases hk3 : k = ((3 : Int), r) <;> by_cases hk0 : k = ((0 : Int), r) <;>
            by_cases hk4 : k = ((4 : Int), r) <;> by_cases hk2 : k = ((2 : Int), r) <;>
            simp_all [Board.find?_insert, Board.find?_erase hwp2,
              Board.find?_erase hwB3, Board.find?_erase hwB2, Board.find?_erase hwf]
  · -- not a castling move
    cases hcap : st.pieces.find? toSq with
    | none =>
      have hw1 : Board.Wf ((st.pieces.erase (c, r)).insert toSq mp) :=
        Board.wf_insert (Board.wf_erase hwf _) _ _
      simp only [driverMakeMove, driverUnmakeMove, hEP, hcap, Bool.false_eq_true,
        if_false, false_and, hcastle, EngineState.mk.injEq]
      refine ⟨?_, trivial, trivial⟩
      refine Board.ext_wf
        (Board.wf_insert (Board.wf_erase hw1 _) _ _) hwf ?_
      intro k
      rw [Board.find?_insert, Board.find?_erase hw1, Board.find?_insert,
        Board.find?_erase hwf]
      by_cases h2 : k = toSq
      · subst h2
        simp [hne, hcap]
      · by_cases h1 : k = (c, r)
        · subst h1
          simp [h2, hfind]
        · simp [h1, h2]
    | some cap =>
      have hw1 : Board.Wf ((st.pieces.erase (c, r)).insert toSq mp) :=
        Board.wf_insert (Board.wf_erase hwf _) _ _
      simp only [driverMakeMove, driverUnmakeMove, hEP, hcap, Bool.false_eq_true,
        if_false, false_and, hcastle, EngineState.mk.injEq]
      refine ⟨?_, trivial, trivial⟩
      refine Board.ext_wf
        (Board.wf_insert (Board.wf_insert (Board.wf_erase hw1 _) _ _) _ _) hwf ?_
      intro k
      rw [Board.find?_insert, Board.find?_insert, Board.find?_erase hw1,
        Board.find?_insert, Board.find?_erase hwf]
      by_cases h2 : k = toSq
      · subst h2
        simp [hne, hcap]
      · by_cases h1 : k = (c, r)
        · subst h1
          simp [h2, hfind]
        · simp [h1, h2]

/-! ### The claims -/

/-- Claim C1 (code bug): at depth 1 the engine does count 20 moves for the
initial position, but the engine's own expected-node table
`EXPECTED_NODES` stores 219326 for depth 4 and 5832730 for depth 5 where
the claim (and the perft literature) require 197281 and 4865609: the
shipped counts differ from the specified baseline. -/
theorem perft_initial_depth1_and_expected_table :
    (countMovesAtDepth 1 startState [] PieceColor.WHITE).1 = 20 ∧
    EXPECTED_NODES.get? 3 = some 219326 ∧
    EXPECTED_NODES.get? 4 = some 5832730 := by
  refine ⟨?_, rfl, rfl⟩
  decide

/-- Counterexample to claim C2 as written: on `rightsState` (Black still
owning the h8-rook's castling right), the white queen's capture h7xh8
followed by its own unmake leaves the castling rights different from the
pre-move rights — the black kingside right is not restored. -/
theorem rookCaptureRights_not_restored :
    (driverUnmakeMove (driverMakeMove rightsState ((7:Int),(1:Int)) ((7:Int),(0:Int))
        (pc .QUEEN .WHITE)).1 ((7:Int),(1:Int)) ((7:Int),(0:Int)) (pc .QUEEN .WHITE)
      (driverMakeMove rightsState ((7:Int),(1:Int)) ((7:Int),(0:Int))
        (pc .QUEEN .WHITE)).2).castlingRights ≠ rightsState.castlingRights ∧
    rightsState.castlingRights.blackKingSide = true := by
  decide

/-- Witness for `driverMakeUnmakeRoundtrip`: the initial position with the
pawn move a2-a3. -/
theorem driverMakeUnmakeRoundtrip_witness :
    driverUnmakeMove (driverMakeMove startState ((0:Int),(6:Int)) ((0:Int),(5:Int))
        (pc .PAWN .WHITE)).1 ((0:Int),(6:Int)) ((0:Int),(5:Int)) (pc .PAWN .WHITE)
      (driverMakeMove startState ((0:Int),(6:Int)) ((0:Int),(5:Int)) (pc .PAWN .WHITE)).2 =
      ⟨startState.pieces, startState.enPassantTarget,
        match startState.pieces.find? ((0:Int),(5:Int)) with
        | some cap => updateCastlingRightsForCapture ((0:Int),(5:Int)) cap startState.castlingRights
        | none => startState.castlingRights⟩ :=
  driverMakeUnmakeRoundtrip startState ((0:Int),(6:Int)) ((0:Int),(5:Int)) (pc .PAWN .WHITE)
    PieceColor.WHITE (by decide) (by decide) (by decide)

/-- Claim C3 (code bug): `isSquareAttacked` of `search.cpp` probes for pawn
attackers in the inverted direction: with a lone white pawn on e4 it
reports d3 attacked by White although the pawn cannot move there, and
reports d5 not attacked although the pawn's own move generator produces
the capture e4xd5 — so the oracle is not the could-capture relation. -/
theorem isSquareAttacked_pawn_direction_inverted :
    isSquareAttacked attackBoardA ((3:Int),(5:Int)) PieceColor.WHITE = true ∧
    isSquareAttacked attackBoardB ((3:Int),(3:Int)) PieceColor.WHITE = false ∧
    ((3:Int),(3:Int)) ∈ pawnMoves attackBoardB (pc .PAWN .WHITE) 4 4 ((-1:Int),(-1:Int)) ∧
    ((3:Int),(5:Int)) ∉ pawnMoves attackBoardA (pc .PAWN .WHITE) 4 4 ((-1:Int),(-1:Int)) := by
  decide

/-- Claim C4 (code bug): the move generator emits a pawn's arrival on the
last rank as a single move (no promotion expansion), and the recursive
perft driver counts it once: on `promo1State` (pawn a7, kings e1/h8,
White to move) depth 1 yields 6 = 1 pawn arrival + 5 king moves, where
the claim requires 4 promotions + 5 king moves = 9. -/
theorem promotion_counted_once_in_recursion :
    getLegalMovesForPieceUncached ((0:Int),(1:Int)) promo1Board PieceColor.WHITE
      ((-1:Int),(-1:Int)) ⟨false,false,false,false⟩ = [((0:Int),(0:Int))] ∧
    (countMovesAtDepth 1 promo1State [] PieceColor.WHITE).1 = 6 := by
  constructor
  · decide
  · decide

/-- Claim C5 (code bug): on `epState` (white pawn b5, black pawn a5,
en-passant target a6) the capture b5xa6 is generated, and
`isEnPassantCapture` recognises it against the pre-move target — but the
driver's make step, which overwrites the target with
`calculateEnPassantTarget`'s result before testing, leaves the captured
black pawn standing on a5: en-passant captures are never executed. -/
theorem enPassant_capture_not_executed_by_driver :
    ((0:Int),(2:Int)) ∈ getLegalMovesForPieceUncached ((1:Int),(3:Int)) epBoard
      PieceColor.WHITE ((0:Int),(2:Int)) ⟨false,false,false,false⟩ ∧
    isEnPassantCapture (pc .PAWN .WHITE) ((1:Int),(3:Int)) ((0:Int),(2:Int)) epBoard
      ((0:Int),(2:Int)) = true ∧
    (driverMakeMove epState ((1:Int),(3:Int)) ((0:Int),(2:Int)) (pc .PAWN .WHITE)).1.pieces.find?
      ((0:Int),(3:Int)) = some (pc .PAWN .BLACK) := by
  decide

/-- Claim C6 (code bug): the cache changes the move lists: the cache left
behind by a depth-1 run on `staleStateNh2` (black knight on h2) makes
`getLegalMovesForPiece` return, for the white king on `staleBoard` (black
knight back on f1), a six-move list containing the castle g1 — different
from what generation on the actual board produces, since f1 is occupied. -/
theorem moveGenCache_serves_stale_entry :
    (getLegalMovesForPiece ((4:Int),(7:Int)) staleBoard PieceColor.WHITE ((-1:Int),(-1:Int))
      ⟨true,true,true,true⟩ staleCache).1 ≠
    getLegalMovesForPieceUncached ((4:Int),(7:Int)) staleBoard PieceColor.WHITE
      ((-1:Int),(-1:Int)) ⟨true,true,true,true⟩ := by
  decide

/-- Claim C7 (code bug): the root step of the parallel driver expands a
pawn's arrival on the last rank into four promotions and counts 4, while
the per-move step of the recursion used below the root (and by the
single-threaded driver everywhere) counts the same move once — the two
drivers do not agree on positions with promotions. -/
theorem parallel_root_promotion_counts_four :
    (parallelMoveStep promo1Board 0 PieceColor.WHITE ((0:Int),(1:Int)) (pc .PAWN .WHITE)
      ⟨0, ((-1:Int),(-1:Int)), ⟨false,false,false,false⟩, ((-1:Int),(-1:Int)),
        ⟨false,false,false,false⟩, []⟩ ((0:Int),(0:Int))).subTotal = 4 ∧
    (countMovesMoveStep ((0:Int),(1:Int)) ((0:Int),(0:Int)) (pc .PAWN .WHITE) 0
      (fun s c => countMovesAtDepth 0 s c (nextTurn PieceColor.WHITE)) (0, promo1State, [])).1 = 1 := by
  constructor
  · decide
  · decide

/-- Claim C8 (code bug): the round trip fails already on the initial
position: the emitter writes the literal placeholder `" - "` for castling
(the emitted string has a doubled blank and drops the castling field), so
emit-after-parse of the canonical initial FEN is not the input. -/
theorem fen_roundtrip_fails_on_initial_position :
    getCurrentPositionFEN (setupFromFEN initialGameLogic startFEN) =
      "rnbqkbnr/pppppppp/8/8/8/8/PPPPPPPP/RNBQKBNR w -  -  0 1" ∧
    getCurrentPositionFEN (setupFromFEN initialGameLogic startFEN) ≠ startFEN := by
  constructor
  · decide
  · decide

/-- Claim C9 (code bug): the parser is total and silent: a position
description with no kings at all, and one whose first rank group sums to
18 files, are both accepted without any error and produce ordinary game
states (the parser has no error channel at all). -/
theorem setupFromFEN_accepts_invalid_positions :
    setupFromFEN initialGameLogic "8/8/8/8/8/8/8/8 w - - 0 1" =
      ⟨[], PieceColor.WHITE, false, (-1, -1), 0, 1⟩ ∧
    setupFromFEN initialGameLogic "99/8/8/8/8/8/8/8 b - - 0 1" =
      ⟨[], PieceColor.BLACK, false, (-1, -1), 0, 1⟩ := by
  decide

/-- Claim C10 (code bug): replaying the kingside castle on `staleState`
(as the depth-3 driver does after the cache serves the king's move list
from a descendant board) is not undone on the board map: the make step's
rook shuffle overwrites the black knight on f1, and after the matching
unmake the square is empty although the position held a knight there. -/
theorem stale_castle_replay_destroys_piece :
    (driverUnmakeMove (driverMakeMove staleState ((4:Int),(7:Int)) ((6:Int),(7:Int))
        (pc .KING .WHITE)).1 ((4:Int),(7:Int)) ((6:Int),(7:Int)) (pc .KING .WHITE)
      (driverMakeMove staleState ((4:Int),(7:Int)) ((6:Int),(7:Int))
        (pc .KING .WHITE)).2).pieces.find? ((5:Int),(7:Int)) = none ∧
    staleState.pieces.find? ((5:Int),(7:Int)) = some (pc .KNIGHT .BLACK) := by
  decide

end Phosphor
